import Mathlib

/-!
Verification of the data-normalization-and-aggregation pipeline of the
Canada CAT event severity web app (`src/app.py`).

The pipeline under study is:
  1. `prep`       : schema-check each source, project/rename, concatenate;
  2. year filter  : keep rows whose `Year` is in the selected set;
  3. `split_to_iso` / explode : expand each row's `Provinces` field into
     canonical ISO-3166-2:CA codes, fanning the loss value out;
  4. `prov_sum`   : group by ISO code and sum losses;
  5. `iso_to_name`: attach display names, aborting on a missing mapping.

Tables are embedded as lists of records, pandas `NaN` years as `Option`,
decimal losses as `ℚ`, and the fail-fast `st.error`/`st.stop` aborts as
`Except` errors.
-/

namespace CatApp

/-- A row of the unified table after `prep`: the three retained columns
`Provinces`, `Year` (renamed from `Event_year`, possibly missing/NaN) and
`Loss` (renamed from `Total_losses_in_billions`). -/
structure Row where
  Provinces : String
  Year : Option Int
  Loss : ℚ
deriving DecidableEq, Repr

/-- An input source: its declared column names together with its rows
(projected to the three fields the pipeline retains). -/
structure Source where
  cols : List String
  rows : List Row
deriving DecidableEq, Repr

/-- The three columns `prep` requires of every source, in the order the
code checks them. -/
def requiredCols : List String :=
  ["Provinces", "Event_year", "Total_losses_in_billions"]

/-- The first required column missing from a source, if any
(the `for col in [...]` check inside `prep`). -/
def missingCol (src : Source) : Option String :=
  requiredCols.find? (fun c => !(src.cols.contains c))

/-- `prep`: validates each source in order, failing with the first missing
required column (the `st.error`/`st.stop` branch), otherwise projects,
renames and concatenates all sources in order. -/
def prep : List Source → Except String (List Row)
  | [] => .ok []
  | src :: rest =>
    match missingCol src with
    | some c => .error c
    | none =>
      match prep rest with
      | .error e => .error e
      | .ok t => .ok (src.rows ++ t)

/-- The year filter `df[df["Year"].isin(keep)]`: rows with a missing year
are never in `keep`, hence dropped. -/
def filterYears (keep : List Int) (t : List Row) : List Row :=
  t.filter (fun r =>
    match r.Year with
    | some y => keep.contains y
    | none => false)

/-- The static `region_map` dict: region token → ordered list of canonical
ISO codes, in source order (13 single provinces, then grouped regions with
their misspellings). -/
def region_map : List (String × List String) :=
  [ ("ON", ["CA-ON"]), ("QC", ["CA-QC"]), ("BC", ["CA-BC"]), ("AB", ["CA-AB"]),
    ("SK", ["CA-SK"]), ("MB", ["CA-MB"]), ("NB", ["CA-NB"]), ("NS", ["CA-NS"]),
    ("PE", ["CA-PE"]), ("NL", ["CA-NL"]), ("YT", ["CA-YT"]), ("NT", ["CA-NT"]),
    ("NU", ["CA-NU"]),
    ("Maritimes", ["CA-NB", "CA-NS", "CA-PE"]),
    ("Priaries", ["CA-AB", "CA-SK", "CA-MB"]),
    ("Prairies", ["CA-AB", "CA-SK", "CA-MB"]),
    ("Priaires", ["CA-AB", "CA-SK", "CA-MB"]),
    ("Praries", ["CA-AB", "CA-SK", "CA-MB"]),
    ("Praires", ["CA-AB", "CA-SK", "CA-MB"]) ]

/-- Python's `s.split(",")` over the character list: always returns at
least one (possibly empty) token, and a trailing comma yields a trailing
empty token. -/
def splitCommaAux : List Char → List Char → List String
  | [], cur => [String.mk cur.reverse]
  | c :: cs, cur =>
    if c = ',' then String.mk cur.reverse :: splitCommaAux cs []
    else splitCommaAux cs (c :: cur)

/-- Python's `s.split(",")`. -/
def splitComma (s : String) : List String :=
  splitCommaAux s.data []

/-- Python's `s.strip()`: remove leading and trailing whitespace. -/
def pyStrip (s : String) : String :=
  String.mk (((s.data.dropWhile Char.isWhitespace).reverse.dropWhile
    Char.isWhitespace).reverse)

/-- The token list `[p.strip() for p in str(s).split(",")]` inside
`split_to_iso`. -/
def tokensOf (s : String) : List String :=
  (splitComma s).map pyStrip

/-- The token-resolution loop of `split_to_iso`: look each token up in
`region_map`, extending the output, and abort on the first unknown token
(the `st.error`/`st.stop` branch), naming it. -/
def resolveTokens : List String → Except String (List String)
  | [] => .ok []
  | p :: ps =>
    match List.lookup p region_map with
    | some codes =>
      match resolveTokens ps with
      | .error e => .error e
      | .ok out => .ok (codes ++ out)
    | none => .error p

/-- `split_to_iso`: split on commas, strip each token, resolve all tokens. -/
def split_to_iso (s : String) : Except String (List String) :=
  resolveTokens (tokensOf s)

/-- An expanded record (one row of `df_exp` after `explode("ISO")`): a
single canonical code carrying the original row's year and loss. -/
structure ExpRow where
  ISO : String
  Year : Option Int
  Loss : ℚ
deriving DecidableEq, Repr

/-- Expansion of a single row: every code `split_to_iso` resolves for the
row's `Provinces` field, each inheriting the row's `Year` and `Loss`. -/
def expandRow (r : Row) : Except String (List ExpRow) :=
  match split_to_iso r.Provinces with
  | .error e => .error e
  | .ok codes => .ok (codes.map (fun c => ⟨c, r.Year, r.Loss⟩))

/-- `df["ISO"] = df["Provinces"].apply(split_to_iso)` followed by
`df.explode("ISO")`: rows are expanded in order, aborting at the first row
with an unknown token. -/
def expandAll : List Row → Except String (List ExpRow)
  | [] => .ok []
  | r :: rs =>
    match expandRow r with
    | .error e => .error e
    | .ok e =>
      match expandAll rs with
      | .error e2 => .error e2
      | .ok rest => .ok (e ++ rest)

/-- First-occurrence deduplication (pandas group keys / `unique()`). -/
def dedupFirst (l : List String) : List String :=
  l.foldl (fun acc x => if acc.contains x then acc else acc ++ [x]) []

/-- Lexicographic strict order on character lists, by code point. -/
def charListLt : List Char → List Char → Bool
  | [], [] => false
  | [], _ :: _ => true
  | _ :: _, [] => false
  | a :: as, b :: bs =>
    if a.toNat < b.toNat then true
    else if b.toNat < a.toNat then false
    else charListLt as bs

/-- Lexicographic strict order on strings, by code point. -/
def strLt (a b : String) : Bool :=
  charListLt a.data b.data

/-- Insert a string into a (sorted) list, keeping ascending order. -/
def orderedInsert (x : String) : List String → List String
  | [] => [x]
  | y :: ys => if strLt x y then x :: y :: ys else y :: orderedInsert x ys

/-- Insertion sort on strings, ascending lexicographic order. -/
def sortKeys : List String → List String
  | [] => []
  | x :: xs => orderedInsert x (sortKeys xs)

/-- The group keys of `groupby("ISO")`: the distinct ISO codes, sorted
ascending (pandas groupby sorts keys by default). -/
def groupKeys (t : List ExpRow) : List String :=
  sortKeys (dedupFirst (t.map ExpRow.ISO))

/-- One row of `prov_sum`: an ISO code with its summed loss. -/
structure SummaryRow where
  ISO : String
  TotalLoss : ℚ
deriving DecidableEq, Repr

/-- `prov_sum`: group the expanded rows by ISO code and sum `Loss` within
each group (`agg(TotalLoss=("Loss","sum"))`). -/
def prov_sum (t : List ExpRow) : List SummaryRow :=
  (groupKeys t).map (fun k =>
    ⟨k, ((t.filter (fun r => r.ISO == k)).map ExpRow.Loss).sum⟩)

/-- Modelled from the spec: the severity-variant aggregator. The file
`src/app.py` is the total-loss variant and computes only `TotalLoss`; the
spec's Aggregator additionally computes `EventCount` (the number of
expanded records in the group) and `Severity = TotalLoss / EventCount`.
This summary row carries those extra fields. -/
structure SeverityRow where
  ISO : String
  TotalLoss : ℚ
  EventCount : ℕ
  Severity : ℚ
deriving DecidableEq, Repr

/-- Modelled from the spec: the severity-variant aggregation, grouping
exactly as `prov_sum` does and adding `EventCount` (group size) and
`Severity = TotalLoss / EventCount`. -/
def severity_sum (t : List ExpRow) : List SeverityRow :=
  (groupKeys t).map (fun k =>
    let g := t.filter (fun r => r.ISO == k)
    let total := (g.map ExpRow.Loss).sum
    ⟨k, total, g.length, total / (g.length : ℚ)⟩)

/-- The static `iso_to_name` dict: the 13 ISO-3166-2:CA codes with their
display names, in source order. -/
def iso_to_name : List (String × String) :=
  [ ("CA-ON", "Ontario"),
    ("CA-QC", "Quebec"),
    ("CA-NS", "Nova Scotia"),
    ("CA-NB", "New Brunswick"),
    ("CA-MB", "Manitoba"),
    ("CA-BC", "British Columbia"),
    ("CA-PE", "Prince Edward Island"),
    ("CA-SK", "Saskatchewan"),
    ("CA-AB", "Alberta"),
    ("CA-NL", "Newfoundland and Labrador"),
    ("CA-NT", "Northwest Territories"),
    ("CA-YT", "Yukon"),
    ("CA-NU", "Nunavut") ]

/-- A summary row with its resolved display name (`prov_name` column). -/
structure NamedRow where
  ISO : String
  TotalLoss : ℚ
  prov_name : String
deriving DecidableEq, Repr

/-- The name-resolution step: map each summary row's code through
`iso_to_name`; if any code has no name, abort with the distinct missing
codes (the `missing`/`st.error`/`st.stop` sanity check), otherwise attach
the names. -/
def resolveNames (rows : List SummaryRow) :
    Except (List String) (List NamedRow) :=
  let missing :=
    dedupFirst ((rows.filter
      (fun r => (List.lookup r.ISO iso_to_name).isNone)).map SummaryRow.ISO)
  if missing.isEmpty then
    .ok (rows.map (fun r =>
      ⟨r.ISO, r.TotalLoss, (List.lookup r.ISO iso_to_name).getD ""⟩))
  else
    .error missing

/-- The outcome of one pipeline run: the distinct abort paths of the
script, plus the successful named summary handed to the renderer. -/
inductive RunResult where
  | schemaError (col : String)
  | noData
  | unknownRegion (tok : String)
  | nameError (codes : List String)
  | ok (out : List NamedRow)
deriving DecidableEq, Repr

/-- The whole pipeline run of `src/app.py` on the selected sources and the
user-selected year set `keep`: load/validate, filter by year, report
"no data" and stop on an empty result (`st.warning`, not an error),
expand regions, aggregate, resolve names. -/
def runPipeline (sources : List Source) (keep : List Int) : RunResult :=
  match prep sources with
  | .error c => .schemaError c
  | .ok df =>
    let df2 := filterYears keep df
    if df2.isEmpty then .noData
    else
      match expandAll df2 with
      | .error t => .unknownRegion t
      | .ok texp =>
        match resolveNames (prov_sum texp) with
        | .error cs => .nameError cs
        | .ok out => .ok out

/-! ### Helper lemmas -/

/-- A successful assoc-list lookup returns a pair of the list. -/
theorem lookup_mem {β : Type} {l : List (String × β)} {p : String} {v : β}
    (h : List.lookup p l = some v) : (p, v) ∈ l := by
  induction l with
  | nil => simp [List.lookup] at h
  | cons hd tl ih =>
    rw [List.lookup] at h
    by_cases hb : p == hd.1
    · rw [hb] at h
      simp only [Option.some.injEq] at h
      have hpe : p = hd.1 := by simpa using hb
      have hpv : (p, v) = hd := by rw [hpe, ← h]
      rw [hpv]
      exact List.mem_cons_self hd tl
    · rw [Bool.of_not_eq_true hb] at h
      exact List.mem_cons_of_mem _ (ih h)

/-- Every code in the codomain of `region_map` has a display name in
`iso_to_name`. -/
theorem region_codomain_named :
    ∀ pr ∈ region_map, ∀ c ∈ pr.2, (List.lookup c iso_to_name).isSome = true := by
  decide

/-- Codes output by the token-resolution loop all have display names. -/
theorem resolveTokens_ok_named {ts : List String} {out : List String}
    (h : resolveTokens ts = .ok out) :
    ∀ c ∈ out, (List.lookup c iso_to_name).isSome = true := by
  induction ts generalizing out with
  | nil =>
    simp only [resolveTokens, Except.ok.injEq] at h
    subst h
    intro c hc
    simp at hc
  | cons p ps ih =>
    rw [resolveTokens] at h
    cases hl : List.lookup p region_map with
    | none => rw [hl] at h; cases h
    | some codes =>
      rw [hl] at h
      cases hr : resolveTokens ps with
      | error e => rw [hr] at h; cases h
      | ok rest =>
        rw [hr] at h
        simp only [Except.ok.injEq] at h
        subst h
        intro c hc
        rcases List.mem_append.mp hc with hc1 | hc2
        · exact region_codomain_named (p, codes) (lookup_mem hl) c hc1
        · exact ih hr c hc2

/-- A successful token resolution means every token is in the map. -/
theorem resolveTokens_ok_keys {ts : List String} {out : List String}
    (h : resolveTokens ts = .ok out) :
    ∀ p ∈ ts, (List.lookup p region_map).isSome = true := by
  induction ts generalizing out with
  | nil => intro p hp; simp at hp
  | cons q qs ih =>
    rw [resolveTokens] at h
    cases hl : List.lookup q region_map with
    | none => rw [hl] at h; cases h
    | some codes =>
      rw [hl] at h
      cases hr : resolveTokens qs with
      | error e => rw [hr] at h; cases h
      | ok rest =>
        intro p hp
        rcases List.mem_cons.mp hp with hp1 | hp2
        · subst hp1; rw [hl]; rfl
        · exact ih hr p hp2

/-- A token outside the map makes the resolution loop fail, naming some
unmapped token of the list. -/
theorem resolveTokens_bad {ts : List String}
    (h : ∃ p ∈ ts, List.lookup p region_map = none) :
    ∃ t, resolveTokens ts = .error t ∧ t ∈ ts ∧
      List.lookup t region_map = none := by
  induction ts with
  | nil => rcases h with ⟨p, hp, _⟩; simp at hp
  | cons q qs ih =>
    cases hl : List.lookup q region_map with
    | none =>
      exact ⟨q, by rw [resolveTokens, hl], List.mem_cons_self q qs, hl⟩
    | some codes =>
      have h' : ∃ p ∈ qs, List.lookup p region_map = none := by
        rcases h with ⟨p, hp, hpn⟩
        rcases List.mem_cons.mp hp with hp1 | hp2
        · subst hp1; rw [hl] at hpn; cases hpn
        · exact ⟨p, hp2, hpn⟩
      rcases ih h' with ⟨t, ht, htm, htn⟩
      refine ⟨t, ?_, List.mem_cons_of_mem _ htm, htn⟩
      rw [resolveTokens, hl, ht]

/-- A failing token resolution names an unmapped token of the list. -/
theorem resolveTokens_err_token {ts : List String} {e : String}
    (h : resolveTokens ts = .error e) :
    e ∈ ts ∧ List.lookup e region_map = none := by
  induction ts with
  | nil => cases h
  | cons q qs ih =>
    rw [resolveTokens] at h
    cases hl : List.lookup q region_map with
    | none =>
      rw [hl] at h
      simp only [Except.error.injEq] at h
      rw [← h]
      exact ⟨List.mem_cons_self q qs, hl⟩
    | some codes =>
      rw [hl] at h
      cases hr : resolveTokens qs with
      | error e2 =>
        rw [hr] at h
        simp only [Except.error.injEq] at h
        rw [h] at hr
        rcases ih hr with ⟨hm, hn⟩
        exact ⟨List.mem_cons_of_mem _ hm, hn⟩
      | ok rest => rw [hr] at h; cases h

/-- A row with a token outside the map makes `expandAll` fail, naming an
unmapped token of some row of the table. -/
theorem expandAll_bad {df : List Row}
    (h : ∃ r ∈ df, ∃ p ∈ tokensOf r.Provinces,
      List.lookup p region_map = none) :
    ∃ t, expandAll df = .error t ∧
      (∃ r ∈ df, t ∈ tokensOf r.Provinces) ∧
      List.lookup t region_map = none := by
  induction df with
  | nil => rcases h with ⟨r, hr, _⟩; simp at hr
  | cons q qs ih =>
    cases he : expandRow q with
    | error e =>
      have hs : split_to_iso q.Provinces = .error e := by
        rw [expandRow] at he
        cases hs' : split_to_iso q.Provinces with
        | error e2 =>
          rw [hs'] at he
          simp only [Except.error.injEq] at he
          rw [he]
        | ok codes => rw [hs'] at he; cases he
      rw [split_to_iso] at hs
      rcases resolveTokens_err_token hs with ⟨hm, hn⟩
      exact ⟨e, by rw [expandAll, he], ⟨q, List.mem_cons_self q qs, hm⟩, hn⟩
    | ok e =>
      have h' : ∃ r ∈ qs, ∃ p ∈ tokensOf r.Provinces,
          List.lookup p region_map = none := by
        rcases h with ⟨r, hr, p, hp, hpn⟩
        rcases List.mem_cons.mp hr with hr1 | hr2
        · subst hr1
          rw [expandRow] at he
          cases hs : split_to_iso r.Provinces with
          | error e2 => rw [hs] at he; cases he
          | ok codes =>
            rw [split_to_iso] at hs
            have := resolveTokens_ok_keys hs p hp
            rw [hpn] at this; cases this
        · exact ⟨r, hr2, p, hp, hpn⟩
      rcases ih h' with ⟨t, ht, ⟨r, hr, htm⟩, htn⟩
      refine ⟨t, ?_, ⟨r, List.mem_cons_of_mem _ hr, htm⟩, htn⟩
      rw [expandAll, he, ht]

/-- Elements of the deduplication fold come from the accumulator or the
list. -/
theorem mem_dedup_fold (l : List String) :
    ∀ (acc : List String) (x : String),
      x ∈ l.foldl (fun a y => if a.contains y then a else a ++ [y]) acc →
      x ∈ acc ∨ x ∈ l := by
  induction l with
  | nil => intro acc x hx; exact Or.inl hx
  | cons y ys ih =>
    intro acc x hx
    rw [List.foldl_cons] at hx
    rcases ih _ x hx with h1 | h2
    · by_cases hc : acc.contains y
      · rw [if_pos hc] at h1
        exact Or.inl h1
      · rw [if_neg hc] at h1
        rcases List.mem_append.mp h1 with ha | hy
        · exact Or.inl ha
        · right
          simp only [List.mem_singleton] at hy
          rw [hy]
          exact List.mem_cons_self y ys
    · exact Or.inr (List.mem_cons_of_mem _ h2)

/-- `dedupFirst` only returns elements of its input. -/
theorem dedupFirst_sub {l : List String} {x : String}
    (h : x ∈ dedupFirst l) : x ∈ l := by
  rcases mem_dedup_fold l [] x h with h1 | h2
  · simp at h1
  · exact h2

/-- `orderedInsert` only returns the new element or elements of the list. -/
theorem orderedInsert_sub {x y : String} {l : List String}
    (h : x ∈ orderedInsert y l) : x = y ∨ x ∈ l := by
  induction l with
  | nil =>
    simp only [orderedInsert, List.mem_singleton] at h
    exact Or.inl h
  | cons z zs ih =>
    rw [orderedInsert] at h
    by_cases hlt : strLt y z
    · rw [if_pos hlt] at h
      rcases List.mem_cons.mp h with h1 | h2
      · exact Or.inl h1
      · exact Or.inr h2
    · rw [if_neg hlt] at h
      rcases List.mem_cons.mp h with h1 | h2
      · right; rw [h1]; exact List.mem_cons_self z zs
      · rcases ih h2 with h3 | h4
        · exact Or.inl h3
        · exact Or.inr (List.mem_cons_of_mem _ h4)

/-- `sortKeys` only returns elements of its input. -/
theorem sortKeys_sub {l : List String} {x : String}
    (h : x ∈ sortKeys l) : x ∈ l := by
  induction l with
  | nil => simp [sortKeys] at h
  | cons y ys ih =>
    rw [sortKeys] at h
    rcases orderedInsert_sub h with h1 | h2
    · rw [h1]; exact List.mem_cons_self y ys
    · exact List.mem_cons_of_mem _ (ih h2)

/-- Every group key is the ISO code of some expanded row. -/
theorem groupKeys_sub {t : List ExpRow} {k : String}
    (h : k ∈ groupKeys t) : ∃ e ∈ t, e.ISO = k := by
  have h1 : k ∈ t.map ExpRow.ISO := dedupFirst_sub (sortKeys_sub h)
  rcases List.mem_map.mp h1 with ⟨e, he, hek⟩
  exact ⟨e, he, hek⟩

/-- Every ISO code of a successful expansion has a display name. -/
theorem expandAll_ok_named {df : List Row} {texp : List ExpRow}
    (h : expandAll df = .ok texp) :
    ∀ e ∈ texp, (List.lookup e.ISO iso_to_name).isSome = true := by
  induction df generalizing texp with
  | nil =>
    simp only [expandAll, Except.ok.injEq] at h
    subst h
    intro e he
    simp at he
  | cons q qs ih =>
    rw [expandAll] at h
    cases he1 : expandRow q with
    | error e0 => rw [he1] at h; cases h
    | ok e1 =>
      rw [he1] at h
      cases he2 : expandAll qs with
      | error e0 => rw [he2] at h; cases h
      | ok rest =>
        rw [he2] at h
        simp only [Except.ok.injEq] at h
        subst h
        intro e he
        rcases List.mem_append.mp he with hh | ht
        · rw [expandRow] at he1
          cases hs : split_to_iso q.Provinces with
          | error e2 => rw [hs] at he1; cases he1
          | ok codes =>
            rw [hs] at he1
            simp only [Except.ok.injEq] at he1
            subst he1
            rcases List.mem_map.mp hh with ⟨c, hc, hce⟩
            rw [split_to_iso] at hs
            have := resolveTokens_ok_named hs c hc
            rw [← hce]
            exact this
        · exact ih he2 e ht

/-- If every summary row's code has a display name, name resolution
succeeds. -/
theorem resolveNames_ok {rows : List SummaryRow}
    (h : ∀ r ∈ rows, (List.lookup r.ISO iso_to_name).isSome = true) :
    ∃ out, resolveNames rows = .ok out := by
  have hfil : rows.filter
      (fun r => (List.lookup r.ISO iso_to_name).isNone) = [] := by
    rw [List.filter_eq_nil_iff]
    intro r hr
    rw [Option.isNone_iff_eq_none]
    intro hnone
    have := h r hr
    rw [hnone] at this
    cases this
  refine ⟨rows.map (fun r =>
    ⟨r.ISO, r.TotalLoss, (List.lookup r.ISO iso_to_name).getD ""⟩), ?_⟩
  simp only [resolveNames]
  rw [hfil]
  rfl

/-- A valid source collection is concatenated in full, preserving the
total row count. -/
theorem prep_ok_of_valid {sources : List Source}
    (h : ∀ src ∈ sources, missingCol src = none) :
    ∃ t, prep sources = .ok t ∧
      t.length = (sources.map (fun s => s.rows.length)).sum := by
  induction sources with
  | nil => exact ⟨[], rfl, by simp⟩
  | cons src rest ih =>
    have hsrc : missingCol src = none := h src (List.mem_cons_self src rest)
    rcases ih (fun s hs => h s (List.mem_cons_of_mem _ hs)) with ⟨t, ht, hlen⟩
    refine ⟨src.rows ++ t, ?_, ?_⟩
    · rw [prep, hsrc, ht]
    · simp [hlen]

/-- A source with a missing required column makes `prep` fail with a
required column that is indeed missing from one of the sources. -/
theorem prep_bad {sources : List Source}
    (h : ∃ src ∈ sources, ∃ c ∈ requiredCols, c ∉ src.cols) :
    ∃ c, prep sources = .error c ∧ c ∈ requiredCols ∧
      ∃ src ∈ sources, c ∉ src.cols := by
  induction sources with
  | nil => rcases h with ⟨src, hs, _⟩; simp at hs
  | cons src rest ih =>
    cases hm : missingCol src with
    | some c =>
      have hfind := hm
      rw [missingCol] at hfind
      have hp := List.find?_some hfind
      have hcm : c ∈ requiredCols := List.mem_of_find?_eq_some hfind
      have hnc : c ∉ src.cols := by simpa using hp
      exact ⟨c, by rw [prep, hm], hcm, src, List.mem_cons_self src rest, hnc⟩
    | none =>
      have h' : ∃ s ∈ rest, ∃ c ∈ requiredCols, c ∉ s.cols := by
        rcases h with ⟨s, hs, c, hc, hnc⟩
        rcases List.mem_cons.mp hs with hs1 | hs2
        · subst hs1
          rw [missingCol, List.find?_eq_none] at hm
          have hin : c ∈ s.cols := by simpa using hm c hc
          exact absurd hin hnc
        · exact ⟨s, hs2, c, hc, hnc⟩
      rcases ih h' with ⟨c, hc, hcm, s, hs, hnc⟩
      refine ⟨c, ?_, hcm, s, List.mem_cons_of_mem _ hs, hnc⟩
      rw [prep, hm, hc]

/-! ### Claim theorems -/

/-- The input table of the end-to-end scenario. -/
def c1input : List Row :=
  [⟨"ON", some 2020, 1.5⟩, ⟨"ON,QC", some 2020, 2.0⟩, ⟨"AB", some 2019, 5.0⟩]

/-- The expanded records of the end-to-end scenario. -/
def c1expanded : List ExpRow :=
  [⟨"CA-ON", some 2020, 1.5⟩, ⟨"CA-ON", some 2020, 2.0⟩,
    ⟨"CA-QC", some 2020, 2.0⟩]

/-- Claim C1: on the three scenario rows with year filter {2020}, the
expanded records are exactly (CA-ON,1.5), (CA-ON,2.0), (CA-QC,2.0), and
the summary is exactly CA-ON {TotalLoss 3.5, EventCount 2, Severity 1.75}
and CA-QC {TotalLoss 2.0, EventCount 1, Severity 2.0}; CA-AB is absent
(its row is removed by the year filter). -/
theorem claim_C1_end_to_end :
    filterYears [2020] c1input =
      [⟨"ON", some 2020, 1.5⟩, ⟨"ON,QC", some 2020, 2.0⟩] ∧
    expandAll (filterYears [2020] c1input) = .ok c1expanded ∧
    severity_sum c1expanded =
      [⟨"CA-ON", 3.5, 2, 1.75⟩, ⟨"CA-QC", 2.0, 1, 2.0⟩] ∧
    prov_sum c1expanded = [⟨"CA-ON", 3.5⟩, ⟨"CA-QC", 2.0⟩] := by
  refine ⟨rfl, rfl, ?_, ?_⟩
  · simp +decide [severity_sum, groupKeys, sortKeys, orderedInsert, strLt,
      charListLt, dedupFirst, c1expanded, List.filter]
    norm_num
  · simp +decide [prov_sum, groupKeys, sortKeys, orderedInsert, strLt,
      charListLt, dedupFirst, c1expanded, List.filter]
    norm_num

/-- Claim C2: if the table reaching the region normalizer (the loaded
table after the year filter) contains a row with a token outside
`region_map`, the run ends in `unknownRegion` naming an offending token of
that table, and no summary is produced. -/
theorem claim_C2_unknown_region_fail_fast
    (sources : List Source) (keep : List Int) (df : List Row)
    (hprep : prep sources = .ok df)
    (hbad : ∃ r ∈ filterYears keep df, ∃ p ∈ tokensOf r.Provinces,
      List.lookup p region_map = none) :
    ∃ t, runPipeline sources keep = .unknownRegion t ∧
      (∃ r ∈ filterYears keep df, t ∈ tokensOf r.Provinces) ∧
      List.lookup t region_map = none := by
  rcases expandAll_bad hbad with ⟨t, ht, htm, htn⟩
  refine ⟨t, ?_, htm, htn⟩
  have hne : (filterYears keep df).isEmpty = false := by
    rw [List.isEmpty_eq_false]
    rcases hbad with ⟨r, hr, _⟩
    exact List.ne_nil_of_mem hr
  simp [runPipeline, hprep, hne, ht]

/-- Claim C2 witness: a one-row table with token "XX" aborts with the
unknown-region error naming "XX". -/
theorem claim_C2_witness :
    ∃ t, runPipeline [⟨requiredCols, [⟨"XX", some 2020, 1⟩]⟩] [2020] =
        .unknownRegion t ∧
      (∃ r ∈ filterYears [2020] [(⟨"XX", some 2020, 1⟩ : Row)],
        t ∈ tokensOf r.Provinces) ∧
      List.lookup t region_map = none :=
  claim_C2_unknown_region_fail_fast
    [⟨requiredCols, [⟨"XX", some 2020, 1⟩]⟩] [2020] [⟨"XX", some 2020, 1⟩]
    rfl
    ⟨⟨"XX", some 2020, 1⟩, List.mem_cons_self _ _, "XX", by decide, rfl⟩

/-- Claim C3: a source missing a required column makes the loader fail
with that column before returning anything, and the whole run reports the
schema error — no concatenated table is produced. -/
theorem claim_C3_schema_error (sources : List Source)
    (h : ∃ src ∈ sources, ∃ c ∈ requiredCols, c ∉ src.cols) :
    ∃ c, prep sources = .error c ∧ c ∈ requiredCols ∧
      (∃ src ∈ sources, c ∉ src.cols) ∧
      ∀ keep, runPipeline sources keep = .schemaError c := by
  rcases prep_bad h with ⟨c, hc, hcm, hsrc⟩
  refine ⟨c, hc, hcm, hsrc, fun keep => ?_⟩
  simp [runPipeline, hc]

/-- Claim C3 witness: a source lacking `Total_losses_in_billions` makes
the run fail with that schema error. -/
theorem claim_C3_witness :
    ∃ c, prep [⟨["Provinces", "Event_year"], []⟩] = .error c ∧
      c ∈ requiredCols ∧
      (∃ src ∈ [(⟨["Provinces", "Event_year"], []⟩ : Source)],
        c ∉ src.cols) ∧
      ∀ keep, runPipeline [⟨["Provinces", "Event_year"], []⟩] keep =
        .schemaError c :=
  claim_C3_schema_error [⟨["Provinces", "Event_year"], []⟩]
    ⟨⟨["Provinces", "Event_year"], []⟩, List.mem_cons_self _ _,
      "Total_losses_in_billions", by decide, by decide⟩

/-- Claim C4: every code in the codomain of `region_map` has an entry in
the 13-entry `iso_to_name` table; hence every code output by
`split_to_iso` has a display name, and on any successfully expanded table
the missing-mapping branch of name resolution is unreachable. -/
theorem claim_C4_names_exhaustive :
    (∀ pr ∈ region_map, ∀ c ∈ pr.2,
      (List.lookup c iso_to_name).isSome = true) ∧
    (∀ s codes, split_to_iso s = .ok codes →
      ∀ c ∈ codes, (List.lookup c iso_to_name).isSome = true) ∧
    (∀ rows texp, expandAll rows = .ok texp →
      ∃ out, resolveNames (prov_sum texp) = .ok out) := by
  refine ⟨region_codomain_named, ?_, ?_⟩
  · intro s codes h c hc
    rw [split_to_iso] at h
    exact resolveTokens_ok_named h c hc
  · intro rows texp h
    apply resolveNames_ok
    intro r hr
    rcases List.mem_map.mp hr with ⟨k, hk, hkr⟩
    rcases groupKeys_sub hk with ⟨e, he, hek⟩
    have := expandAll_ok_named h e he
    rw [← hkr]
    simpa [hek] using this

/-- Claim C4 witness: name resolution succeeds on the summary of a
concrete expanded table. -/
theorem claim_C4_witness :
    ∃ out, resolveNames
      (prov_sum [(⟨"CA-ON", some 2020, 1⟩ : ExpRow)]) = .ok out :=
  claim_C4_names_exhaustive.2.2 [⟨"ON", some 2020, 1⟩]
    [⟨"CA-ON", some 2020, 1⟩] rfl

/-- Claim C5: a row whose `Provinces` field is "Maritimes" expands to
exactly three records, with codes CA-NB, CA-NS, CA-PE, each carrying the
row's loss (and year) unchanged. -/
theorem claim_C5_maritimes_fanout (r : Row) (h : r.Provinces = "Maritimes") :
    expandRow r = .ok [⟨"CA-NB", r.Year, r.Loss⟩, ⟨"CA-NS", r.Year, r.Loss⟩,
      ⟨"CA-PE", r.Year, r.Loss⟩] := by
  have hs : split_to_iso r.Provinces = .ok ["CA-NB", "CA-NS", "CA-PE"] := by
    rw [h]
    rfl
  simp only [expandRow, hs]
  rfl

/-- Claim C5 witness: the Maritimes fan-out on a concrete row. -/
theorem claim_C5_witness :
    expandRow ⟨"Maritimes", some 2021, 7⟩ =
      .ok [⟨"CA-NB", some 2021, 7⟩, ⟨"CA-NS", some 2021, 7⟩,
        ⟨"CA-PE", some 2021, 7⟩] :=
  claim_C5_maritimes_fanout ⟨"Maritimes", some 2021, 7⟩ rfl

/-- Claim C6: every misspelling entry of the Prairies grouping resolves to
the same code list ["CA-AB", "CA-SK", "CA-MB"] as the canonical spelling. -/
theorem claim_C6_misspellings :
    split_to_iso "Priaries" = .ok ["CA-AB", "CA-SK", "CA-MB"] ∧
    split_to_iso "Prairies" = .ok ["CA-AB", "CA-SK", "CA-MB"] ∧
    split_to_iso "Priaires" = .ok ["CA-AB", "CA-SK", "CA-MB"] ∧
    split_to_iso "Praries" = .ok ["CA-AB", "CA-SK", "CA-MB"] ∧
    split_to_iso "Praires" = .ok ["CA-AB", "CA-SK", "CA-MB"] :=
  ⟨rfl, rfl, rfl, rfl, rfl⟩

/-- Claim C7: for a non-empty collection of valid sources, the loader
succeeds and its output row count is the sum of the sources' row counts. -/
theorem claim_C7_concat_length (sources : List Source)
    (_hne : sources ≠ [])
    (hvalid : ∀ src ∈ sources, ∀ c ∈ requiredCols, c ∈ src.cols) :
    ∃ t, prep sources = .ok t ∧
      t.length = (sources.map (fun s => s.rows.length)).sum := by
  apply prep_ok_of_valid
  intro src hs
  rw [missingCol, List.find?_eq_none]
  intro c hc
  simp [hvalid src hs c hc]

/-- Claim C7 witness: two valid sources with one and two rows concatenate
to three rows. -/
theorem claim_C7_witness :
    ∃ t, prep [⟨requiredCols, [⟨"ON", some 2020, 1⟩]⟩,
        ⟨requiredCols ++ ["Extra"], [⟨"QC", some 2019, 2⟩,
          ⟨"BC", some 2018, 3⟩]⟩] = .ok t ∧
      t.length = (([⟨requiredCols, [⟨"ON", some 2020, 1⟩]⟩,
        ⟨requiredCols ++ ["Extra"], [⟨"QC", some 2019, 2⟩,
          ⟨"BC", some 2018, 3⟩]⟩] : List Source).map
            (fun s => s.rows.length)).sum :=
  claim_C7_concat_length _ (List.cons_ne_nil _ _)
    (by intro src hs c hc; fin_cases hs <;> simp_all [requiredCols]; tauto)

/-- Claim C8: year filtering is idempotent — filtering an already
filtered table by the same year set returns the same table. -/
theorem claim_C8_filter_idempotent (keep : List Int) (t : List Row) :
    filterYears keep (filterYears keep t) = filterYears keep t := by
  simp [filterYears, List.filter_filter]

/-- Claim C9: with an empty selected-year set the filter yields the empty
table and the run stops at the "no data" report (a warning, modelled as
the distinct non-error outcome `noData`), not at an error. -/
theorem claim_C9_empty_years_no_data (sources : List Source)
    (t : List Row) (h : prep sources = .ok t) :
    filterYears [] t = [] ∧ runPipeline sources [] = .noData := by
  have hf : filterYears [] t = [] := by
    rw [filterYears, List.filter_eq_nil_iff]
    intro r _
    cases r.Year <;> simp
  refine ⟨hf, ?_⟩
  simp [runPipeline, h, hf]

/-- Claim C9 witness: the empty year selection stops a one-row run with
"no data". -/
theorem claim_C9_witness :
    filterYears [] [(⟨"ON", some 2020, 1⟩ : Row)] = [] ∧
      runPipeline [⟨requiredCols, [⟨"ON", some 2020, 1⟩]⟩] [] = .noData :=
  claim_C9_empty_years_no_data [⟨requiredCols, [⟨"ON", some 2020, 1⟩]⟩]
    [⟨"ON", some 2020, 1⟩] rfl

/-- Claim C10: a `Provinces` string with an empty token after trimming
makes `split_to_iso` abort with the unknown-region error (the empty token
is not a key of `region_map`), and no successful output of `split_to_iso`
ever involves a token outside the key set of `region_map`. -/
theorem claim_C10_empty_token :
    (∀ s, (∃ p ∈ tokensOf s, p = "") →
      ∃ t, split_to_iso s = .error t ∧
        List.lookup t region_map = none) ∧
    (∀ s codes, split_to_iso s = .ok codes →
      ∀ p ∈ tokensOf s, (List.lookup p region_map).isSome = true) := by
  constructor
  · intro s hs
    have hbad : ∃ p ∈ tokensOf s, List.lookup p region_map = none := by
      rcases hs with ⟨p, hp, hpe⟩
      refine ⟨p, hp, ?_⟩
      rw [hpe]
      rfl
    rcases resolveTokens_bad hbad with ⟨t, ht, _, htn⟩
    refine ⟨t, ?_, htn⟩
    rw [split_to_iso]
    exact ht
  · intro s codes h
    rw [split_to_iso] at h
    exact resolveTokens_ok_keys h

/-- Claim C10 witness: the trailing empty token of "ON," aborts the
resolution with an unmapped token. -/
theorem claim_C10_witness :
    ∃ t, split_to_iso "ON," = .error t ∧
      List.lookup t region_map = none :=
  claim_C10_empty_token.1 "ON," ⟨"", by decide, rfl⟩

end CatApp
